import Mathlib

/-!
Verification development for the go-ai-models repository: a shallow embedding
of its model-matching and cost-estimation engine (filter, score, rank,
requirement wizard, cost calculator, chat session tracker), with theorems
checking the natural-language specification against the code.

Conventions of the embedding:
- Go `float64` values (prices, costs, scores, ratios) are modelled as `ℚ`,
  the exact-arithmetic idealisation the specification itself computes with.
- Go `int64` / `int` values are modelled as `Int`.
- Go strings are Lean `String`; `strings.EqualFold` and `strings.ToLower`
  are modelled via `String.toLower` (faithful on the ASCII identifiers the
  catalog uses).
-/

/-! ## String helpers (Go strings package operations used by the code) -/

/-- Does `s` start with `p`?  Models the prefix test underlying Go
`strings.Contains` / `strings.HasPrefix`, on character lists. -/
def charsStart : List Char → List Char → Bool
  | _, [] => true
  | [], _ :: _ => false
  | a :: as, b :: bs => a == b && charsStart as bs

/-- Does `s` contain `sub` as a contiguous substring?  Models Go
`strings.Contains`, on character lists. -/
def charsContain : List Char → List Char → Bool
  | [], sub => sub.isEmpty
  | s@(_ :: rest), sub => charsStart s sub || charsContain rest sub

/-- Go `strings.Contains s sub`. -/
def goContains (s sub : String) : Bool :=
  charsContain s.toList sub.toList

/-- Go `strings.HasPrefix s p`. -/
def goHasPre (s p : String) : Bool :=
  charsStart s.toList p.toList

/-- Go `strings.ToLower s`, restricted to its ASCII behaviour
(character-wise lower-casing). -/
def goToLower (s : String) : String := String.mk (s.data.map Char.toLower)

/-- Go `strings.TrimSpace s`: drop leading and trailing whitespace. -/
def goTrim (s : String) : String :=
  String.mk (((s.data.dropWhile Char.isWhitespace).reverse.dropWhile
    Char.isWhitespace).reverse)

/-- Go `strings.EqualFold a b`, restricted to its ASCII behaviour
(case-insensitive equality via lower-casing). -/
def goEqualFold (a b : String) : Bool :=
  goToLower a == goToLower b

/-! ## Catwalk data model (`charm.land/catwalk/pkg/catwalk`)

Only the fields the verified code reads are carried. -/

namespace Catwalk

/-- catwalk `Model`: the per-model catalog record. -/
structure Model where
  id : String
  name : String
  costPer1MIn : ℚ
  costPer1MOut : ℚ
  costPer1MInCached : ℚ
  contextWindow : Int
  canReason : Bool
  supportsImages : Bool
deriving DecidableEq, Repr

/-- catwalk `Provider`: id, display name, ordered model list. -/
structure Provider where
  id : String
  name : String
  models : List Model
deriving DecidableEq, Repr

end Catwalk

open Catwalk

/-! ## Cost calculator (`cost-calculator/main.go`) -/

namespace CostCalc

/-- Go `costResult`. -/
structure CostResult where
  model : String
  provider : String
  inputCost : ℚ
  outputCost : ℚ
  totalCost : ℚ
deriving DecidableEq, Repr

/-- Go `scenario` (one batch record). -/
structure Scenario where
  model : String
  inputTokens : Int
  outputTokens : Int
  cachedRatio : ℚ
deriving DecidableEq, Repr

/-- The model-match predicate of `calculateCost`'s inner loop:
`strings.EqualFold(m.ID, modelName) || strings.Contains(strings.ToLower(m.Name), strings.ToLower(modelName))`. -/
def modelMatches (m : Model) (modelName : String) : Bool :=
  goEqualFold m.id modelName || goContains (goToLower m.name) (goToLower modelName)

/-- Inner loop of the lookup in `calculateCost`: scan a provider's models in
list order, first match wins. -/
def findInModels (ms : List Model) (modelName : String) : Option Model :=
  match ms with
  | [] => none
  | m :: rest => if modelMatches m modelName then some m else findInModels rest modelName

/-- Outer loop of the lookup in `calculateCost`: scan providers in catalog
order; within each, scan models; first match wins. -/
def findModel (ps : List Provider) (modelName : String) : Option (Model × Provider) :=
  match ps with
  | [] => none
  | p :: rest =>
    match findInModels p.models modelName with
    | some m => some (m, p)
    | none => findModel rest modelName

/-- Go `calculateCost`: resolve the model, then
`cachedInputTokens := inputTokens * cachedRatio`,
`uncachedInputTokens := inputTokens * (1 - cachedRatio)`,
`inputCost := uncached * CostPer1MIn / 1e6 + cached * CostPer1MInCached / 1e6`,
`outputCost := outputTokens * CostPer1MOut / 1e6`,
total = input + output.  Returns `none` when no model matches. -/
def calculateCost (ps : List Provider) (modelName : String)
    (inputTokens outputTokens : Int) (cachedRatio : ℚ) : Option CostResult :=
  match findModel ps modelName with
  | none => none
  | some (m, p) =>
    let cachedInputTokens : ℚ := (inputTokens : ℚ) * cachedRatio
    let uncachedInputTokens : ℚ := (inputTokens : ℚ) * (1 - cachedRatio)
    let inputCost : ℚ :=
      uncachedInputTokens * m.costPer1MIn / 1000000 +
        cachedInputTokens * m.costPer1MInCached / 1000000
    let outputCost : ℚ := (outputTokens : ℚ) * m.costPer1MOut / 1000000
    some { model := m.name, provider := p.name, inputCost := inputCost,
           outputCost := outputCost, totalCost := inputCost + outputCost }

/-- Go `processBatch`'s accumulation loop: resolve each scenario
independently, skip (without aborting) those whose lookup fails, keep
scenario order. -/
def processBatch (ps : List Provider) (scenarios : List Scenario) : List CostResult :=
  match scenarios with
  | [] => []
  | s :: rest =>
    match calculateCost ps s.model s.inputTokens s.outputTokens s.cachedRatio with
    | some r => r :: processBatch ps rest
    | none => processBatch ps rest

end CostCalc

/-! ## Go `sort.Slice`

The repository ranks candidates with Go's `sort.Slice`, whose algorithm
(since Go 1.19) is pattern-defeating quicksort (`pdqsort_func` in
`sort/zsortfunc.go`).  `sort.Slice` is documented as *not* guaranteed to be
stable.  The embedding below transcribes that algorithm.  Loops become
fuel-indexed recursion; the fuel supplied at the top level exceeds the
number of iterations any execution performs, so on every input the
embedding computes exactly what the Go code computes.  Element swaps are
guarded by bounds checks; the Go code would panic out of bounds, and no
reachable call is out of bounds. -/

namespace GoSort

variable {α : Type} [Inhabited α]

/-- Read a slice element (Go `data[i]`). -/
def getE (l : List α) (i : Nat) : α := l.getD i default

/-- Go `data.Swap(i, j)`. -/
def swapE (l : List α) (i j : Nat) : List α :=
  if i < l.length ∧ j < l.length then (l.set i (getE l j)).set j (getE l i) else l

/-- Go `data.Less(i, j)` for a comparator `less` on elements. -/
def lessAt (less : α → α → Bool) (l : List α) (i j : Nat) : Bool :=
  less (getE l i) (getE l j)

/-- Inner loop of Go `insertionSort_func`:
`for j := i; j > a && data.Less(j, j-1); j-- { data.Swap(j, j-1) }`. -/
def insInner (less : α → α → Bool) (l : List α) (a j : Nat) : Nat → List α
  | 0 => l
  | fuel + 1 =>
    if a < j ∧ lessAt less l j (j - 1) then
      insInner less (swapE l j (j - 1)) a (j - 1) fuel
    else l

/-- Outer loop of Go `insertionSort_func`: `for i := a + 1; i < b; i++`. -/
def insOuter (less : α → α → Bool) (l : List α) (a b i : Nat) : Nat → List α
  | 0 => l
  | fuel + 1 =>
    if i < b then insOuter less (insInner less l a i (i + 1)) a b (i + 1) fuel
    else l

/-- Go `insertionSort_func(data, a, b)`. -/
def insertionSort (less : α → α → Bool) (l : List α) (a b : Nat) : List α :=
  insOuter less l a b (a + 1) (b + 1)

/-- Loop of Go `siftDown_func`. -/
def siftDownLoop (less : α → α → Bool) (l : List α) (root hi first : Nat) :
    Nat → List α
  | 0 => l
  | fuel + 1 =>
    let child := 2 * root + 1
    if child ≥ hi then l
    else
      let child :=
        if child + 1 < hi ∧ lessAt less l (first + child) (first + child + 1) then
          child + 1
        else child
      if ¬ lessAt less l (first + root) (first + child) then l
      else siftDownLoop less (swapE l (first + root) (first + child)) child hi first fuel

/-- Go `siftDown_func(data, lo, hi, first)`. -/
def siftDown (less : α → α → Bool) (l : List α) (lo hi first : Nat) : List α :=
  siftDownLoop less l lo hi first (hi + 2)

/-- Heap-building countdown loop of Go `heapSort_func`:
`for i := (hi-1)/2; i >= 0; i--`. -/
def heapBuild (less : α → α → Bool) (l : List α) (i hi first : Nat) : Nat → List α
  | 0 => l
  | fuel + 1 =>
    let l := siftDown less l i hi first
    if i = 0 then l else heapBuild less l (i - 1) hi first fuel

/-- Pop countdown loop of Go `heapSort_func`: `for i := hi - 1; i >= 0; i--`. -/
def heapPop (less : α → α → Bool) (l : List α) (i first : Nat) : Nat → List α
  | 0 => l
  | fuel + 1 =>
    let l := siftDown less (swapE l first (first + i)) 0 i first
    if i = 0 then l else heapPop less l (i - 1) first fuel

/-- Go `heapSort_func(data, a, b)`. -/
def heapSort (less : α → α → Bool) (l : List α) (a b : Nat) : List α :=
  let first := a
  let hi := b - a
  let l := heapBuild less l ((hi - 1) / 2) hi first ((hi - 1) / 2 + 1)
  if hi = 0 then l else heapPop less l (hi - 1) first hi

/-- Loop of Go `reverseRange_func`: `i, j := a, b-1; for i < j { Swap(i, j); i++; j-- }`. -/
def revLoop (less : α → α → Bool) (l : List α) (i j : Nat) : Nat → List α
  | 0 => l
  | fuel + 1 =>
    if i < j then revLoop less (swapE l i j) (i + 1) (j - 1) fuel else l

/-- Go `reverseRange_func(data, a, b)`. -/
def reverseRange (less : α → α → Bool) (l : List α) (a b : Nat) : List α :=
  revLoop less l a (b - 1) b

/-- Go `bits.Len` on a natural number. -/
def bitsLen (n : Nat) : Nat := if n = 0 then 0 else Nat.log2 n + 1

/-- One step of Go's `xorshift` pseudo-random generator (uint64 state). -/
def xorshiftNext (r : Nat) : Nat :=
  let m := 2 ^ 64
  let r := r ^^^ ((r <<< 13) % m)
  let r := r ^^^ (r >>> 7)
  r ^^^ ((r <<< 17) % m)

/-- The three scattering swaps of Go `breakPatterns_func`. -/
def breakLoop (less : α → α → Bool) (l : List α)
    (a len modulus idx rand i : Nat) : Nat → List α
  | 0 => l
  | fuel + 1 =>
    if i < 3 then
      let rand := xorshiftNext rand
      let other := rand &&& (modulus - 1)
      let other := if other ≥ len then other - len else other
      breakLoop less (swapE l (idx - 1 + i) (a + other)) a len modulus idx rand
        (i + 1) fuel
    else l

/-- Go `breakPatterns_func(data, a, b)`. -/
def breakPtns (less : α → α → Bool) (l : List α) (a b : Nat) : List α :=
  let len := b - a
  if len ≥ 8 then
    let modulus := 2 ^ bitsLen len
    let idx := a + len / 4 * 2 - 1
    breakLoop less l a len modulus idx len 0 4
  else l

/-- Sortedness hints of Go's pivot chooser. -/
inductive Hint
  | increasing
  | decreasing
  | unknown
deriving DecidableEq, Repr

/-- Go `order2_func`: order two indices by the data they point at, counting
comparative swaps. -/
def order2 (less : α → α → Bool) (l : List α) (a b swaps : Nat) :
    Nat × Nat × Nat :=
  if lessAt less l b a then (b, a, swaps + 1) else (a, b, swaps)

/-- Go `median_func`: index of the median of three elements. -/
def medianIdx (less : α → α → Bool) (l : List α) (a b c swaps : Nat) :
    Nat × Nat :=
  let (a, b, swaps) := order2 less l a b swaps
  let (b, _, swaps) := order2 less l b c swaps
  let (_, b, swaps) := order2 less l a b swaps
  (b, swaps)

/-- Go `medianAdjacent_func`: median of `data[a-1], data[a], data[a+1]`. -/
def medianAdj (less : α → α → Bool) (l : List α) (a swaps : Nat) : Nat × Nat :=
  medianIdx less l (a - 1) a (a + 1) swaps

/-- Go `choosePivot_func(data, a, b)`. -/
def choosePivot (less : α → α → Bool) (l : List α) (a b : Nat) : Nat × Hint :=
  let len := b - a
  let i := a + len / 4 * 1
  let j := a + len / 4 * 2
  let k := a + len / 4 * 3
  let (j, swaps) :=
    if len ≥ 8 then
      let (i, j, k, swaps) :=
        if len ≥ 50 then
          let (i, s) := medianAdj less l i 0
          let (j, s) := medianAdj less l j s
          let (k, s) := medianAdj less l k s
          (i, j, k, s)
        else (i, j, k, 0)
      medianIdx less l i j k swaps
    else (j, 0)
  if swaps = 0 then (j, Hint.increasing)
  else if swaps = 12 then (j, Hint.decreasing)
  else (j, Hint.unknown)

/-- Scan of Go `partition_func`: `for i <= j && data.Less(i, a) { i++ }`. -/
def partScanI (less : α → α → Bool) (l : List α) (a i j : Nat) : Nat → Nat
  | 0 => i
  | fuel + 1 =>
    if i ≤ j ∧ lessAt less l i a then partScanI less l a (i + 1) j fuel else i

/-- Scan of Go `partition_func`: `for i <= j && !data.Less(j, a) { j-- }`. -/
def partScanJ (less : α → α → Bool) (l : List α) (a i j : Nat) : Nat → Nat
  | 0 => j
  | fuel + 1 =>
    if i ≤ j ∧ ¬ lessAt less l j a then partScanJ less l a i (j - 1) fuel else j

/-- Main loop of Go `partition_func` after the first crossing swap. -/
def partMain (less : α → α → Bool) (l : List α) (a b i j : Nat) :
    Nat → List α × Nat
  | 0 => (l, j)
  | fuel + 1 =>
    let i := partScanI less l a i j (b + 2)
    let j := partScanJ less l a i j (b + 2)
    if i > j then (l, j)
    else partMain less (swapE l i j) a b (i + 1) (j - 1) fuel

/-- Go `partition_func(data, a, b, pivot)`: returns the slice, the new pivot
position, and whether the range was already partitioned. -/
def partition (less : α → α → Bool) (l : List α) (a b pivot : Nat) :
    List α × Nat × Bool :=
  let l := swapE l a pivot
  let i := a + 1
  let j := b - 1
  let i := partScanI less l a i j (b + 2)
  let j := partScanJ less l a i j (b + 2)
  if i > j then (swapE l j a, j, true)
  else
    let p := partMain less (swapE l i j) a b (i + 1) (j - 1) (b + 2)
    (swapE p.1 p.2 a, p.2, false)

/-- Scan of Go `partitionEqual_func`: `for i <= j && !data.Less(a, i) { i++ }`. -/
def partEqScanI (less : α → α → Bool) (l : List α) (a i j : Nat) : Nat → Nat
  | 0 => i
  | fuel + 1 =>
    if i ≤ j ∧ ¬ lessAt less l a i then partEqScanI less l a (i + 1) j fuel else i

/-- Scan of Go `partitionEqual_func`: `for i <= j && data.Less(a, j) { j-- }`. -/
def partEqScanJ (less : α → α → Bool) (l : List α) (a i j : Nat) : Nat → Nat
  | 0 => j
  | fuel + 1 =>
    if i ≤ j ∧ lessAt less l a j then partEqScanJ less l a i (j - 1) fuel else j

/-- Loop of Go `partitionEqual_func`. -/
def partEqLoop (less : α → α → Bool) (l : List α) (a b i j : Nat) :
    Nat → List α × Nat
  | 0 => (l, i)
  | fuel + 1 =>
    let i := partEqScanI less l a i j (b + 2)
    let j := partEqScanJ less l a i j (b + 2)
    if i > j then (l, i)
    else partEqLoop less (swapE l i j) a b (i + 1) (j - 1) fuel

/-- Go `partitionEqual_func(data, a, b, pivot)`: partitions `data[a:b]` into
elements equal to and greater than the pivot; returns the first index of the
greater part. -/
def partitionEq (less : α → α → Bool) (l : List α) (a b pivot : Nat) :
    List α × Nat :=
  let l := swapE l a pivot
  partEqLoop less l a b (a + 1) (b - 1) (b + 2)

/-- Advance scan of Go `partialInsertionSort_func`:
`for i < b && !data.Less(i, i-1) { i++ }`. -/
def pInsAdvance (less : α → α → Bool) (l : List α) (i b : Nat) : Nat → Nat
  | 0 => i
  | fuel + 1 =>
    if i < b ∧ ¬ lessAt less l i (i - 1) then pInsAdvance less l (i + 1) b fuel
    else i

/-- Left shift loop of Go `partialInsertionSort_func`:
`for j := i - 1; j >= 1; j-- { if !data.Less(j, j-1) { break }; Swap(j, j-1) }`. -/
def pInsShiftL (less : α → α → Bool) (l : List α) (j : Nat) : Nat → List α
  | 0 => l
  | fuel + 1 =>
    if 1 ≤ j ∧ lessAt less l j (j - 1) then
      let l := swapE l j (j - 1)
      if j = 1 then l else pInsShiftL less l (j - 1) fuel
    else l

/-- Right shift loop of Go `partialInsertionSort_func`:
`for j := i + 1; j < b; j++ { if !data.Less(j, j-1) { break }; Swap(j, j-1) }`. -/
def pInsShiftR (less : α → α → Bool) (l : List α) (j b : Nat) : Nat → List α
  | 0 => l
  | fuel + 1 =>
    if j < b ∧ lessAt less l j (j - 1) then
      pInsShiftR less (swapE l j (j - 1)) (j + 1) b fuel
    else l

/-- Step loop of Go `partialInsertionSort_func` (at most `maxSteps = 5`
adjacent out-of-order pairs are examined; no shifting below
`shortestShifting = 50` elements).  Returns the slice and whether it is
sorted. -/
def pInsSteps (less : α → α → Bool) (l : List α) (a b i step : Nat) :
    Nat → List α × Bool
  | 0 => (l, false)
  | fuel + 1 =>
    if step < 5 then
      let i := pInsAdvance less l i b (b + 2)
      if i = b then (l, true)
      else if b - a < 50 then (l, false)
      else
        let l := swapE l i (i - 1)
        let l := if i - a ≥ 2 then pInsShiftL less l (i - 1) (i + 1) else l
        let l := if b - i ≥ 2 then pInsShiftR less l (i + 1) b (b + 2) else l
        pInsSteps less l a b i (step + 1) fuel
    else (l, false)

/-- Go `partialInsertionSort_func(data, a, b)`. -/
def pInsSort (less : α → α → Bool) (l : List α) (a b : Nat) : List α × Bool :=
  pInsSteps less l a b (a + 1) 0 6

/-- The pattern-breaking prologue of a `pdqsort_func` loop iteration:
`if !wasBalanced { breakPatterns_func(data, a, b); limit-- }` (slice part). -/
def pdqPrep (less : α → α → Bool) (l : List α) (a b : Nat)
    (wasBalanced : Bool) : List α :=
  if wasBalanced then l else breakPtns less l a b

/-- The pivot-selection block of a `pdqsort_func` loop iteration: choose a
pivot; on a decreasing hint reverse the range, relocate the pivot to
`(b-1)-(pivot-a)` and treat the hint as increasing; when the last
partitioning was balanced and partitioned and the hint is increasing, try
`partialInsertionSort_func`.  Returns the (possibly mutated) slice, the
pivot position, and whether the range was detected as sorted. -/
def pdqMid (less : α → α → Bool) (l1 : List α) (a b : Nat)
    (wasBalanced wasPartitioned : Bool) : List α × Nat × Bool :=
  let pv := choosePivot less l1 a b
  let revved := pv.2 = Hint.decreasing
  let l2 := if revved then reverseRange less l1 a b else l1
  let pivot := if revved then (b - 1) - (pv.1 - a) else pv.1
  let hint := if revved then Hint.increasing else pv.2
  let likelySorted := wasBalanced ∧ wasPartitioned ∧ hint = Hint.increasing
  let pi := if likelySorted then pInsSort less l2 a b else (l2, false)
  (pi.1, pivot, pi.2)

/-- Go `pdqsort_func(data, a, b, limit)`.  `wasBalanced` and
`wasPartitioned` are the loop-carried local variables of the Go function
(reset to `true` for each fresh recursive invocation); `fuel` bounds the
combined number of loop iterations and recursive calls, and the top-level
call supplies more than any execution uses. -/
def pdqsort (less : α → α → Bool) (l : List α)
    (a b limit : Nat) (wasBalanced wasPartitioned : Bool) : Nat → List α
  | 0 => l
  | fuel + 1 =>
    let length := b - a
    if length ≤ 12 then insertionSort less l a b
    else if limit = 0 then heapSort less l a b
    else
      let l1 := pdqPrep less l a b wasBalanced
      let limit1 := if wasBalanced then limit else limit - 1
      let md := pdqMid less l1 a b wasBalanced wasPartitioned
      let l3 := md.1
      let pivot := md.2.1
      if md.2.2 then l3
      else if 0 < a ∧ ¬ lessAt less l3 (a - 1) pivot then
        let pe := partitionEq less l3 a b pivot
        pdqsort less pe.1 pe.2 b limit1 wasBalanced wasPartitioned fuel
      else
        let pt := partition less l3 a b pivot
        let mid := pt.2.1
        let nowPartitioned := pt.2.2
        let leftLen := mid - a
        let rightLen := b - mid
        let nowBalanced := decide (min leftLen rightLen ≥ length / 8)
        if leftLen < rightLen then
          let l4 := pdqsort less pt.1 a mid limit1 true true fuel
          pdqsort less l4 (mid + 1) b limit1 nowBalanced nowPartitioned fuel
        else
          let l4 := pdqsort less pt.1 (mid + 1) b limit1 true true fuel
          pdqsort less l4 a mid limit1 nowBalanced nowPartitioned fuel

/-- Go `sort.Slice(x, less)`: `length := len(x); limit := bits.Len(uint(length));
pdqsort_func(lessSwap{less, swap}, 0, length, limit)`. -/
def sortSlice (less : α → α → Bool) (l : List α) : List α :=
  let n := l.length
  pdqsort less l 0 n (bitsLen n) true true (4 * n + 16)

/-! ### The sort permutes its input

Every mutation of the embedded sort is an element swap, so the output is a
permutation of the input (this yields membership transfer; it makes no
stability assertion). -/

theorem set_getE_self (l : List α) (i : Nat) : l.set i (getE l i) = l := by
  induction l generalizing i with
  | nil => rfl
  | cons x t ih =>
    cases i with
    | zero => simp [getE]
    | succ n => simpa [getE, List.getD] using ih n

theorem consSetPerm (t : List α) (j : Nat) (a : α) (h : j < t.length) :
    List.Perm (getE t j :: t.set j a) (a :: t) := by
  induction t generalizing j with
  | nil => simp at h
  | cons x s ih =>
    cases j with
    | zero =>
      simpa [getE] using List.Perm.swap a x s
    | succ n =>
      have hn : n < s.length := by simpa using h
      have step : List.Perm (getE s n :: x :: s.set n a) (x :: getE s n :: s.set n a) :=
        List.Perm.swap x (getE s n) (s.set n a)
      have mid : List.Perm (x :: getE s n :: s.set n a) (x :: a :: s) :=
        List.Perm.cons x (ih n hn)
      have fin : List.Perm (x :: a :: s) (a :: x :: s) := List.Perm.swap a x s
      simpa [getE, List.getD] using (step.trans mid).trans fin

theorem doubleSetPerm (l : List α) (i j : Nat) (hij : i < j) (hj : j < l.length) :
    List.Perm ((l.set i (getE l j)).set j (getE l i)) l := by
  induction l generalizing i j with
  | nil => simp at hj
  | cons x t ih =>
    cases i with
    | zero =>
      obtain ⟨n, rfl⟩ : ∃ n, j = n + 1 := ⟨j - 1, by omega⟩
      have hn : n < t.length := by simpa using hj
      simpa [getE, List.getD] using consSetPerm t n x hn
    | succ m =>
      obtain ⟨n, rfl⟩ : ∃ n, j = n + 1 := ⟨j - 1, by omega⟩
      have hn : n < t.length := by simpa using hj
      have hmn : m < n := by omega
      simpa [getE, List.getD] using List.Perm.cons x (ih m n hmn hn)

theorem swapE_perm (l : List α) (i j : Nat) : List.Perm (swapE l i j) l := by
  unfold swapE
  split
  · next hb =>
    rcases Nat.lt_trichotomy i j with hij | hij | hij
    · exact doubleSetPerm l i j hij hb.2
    · subst hij
      rw [set_getE_self, set_getE_self]
    · have hcomm : (l.set i (getE l j)).set j (getE l i)
          = (l.set j (getE l i)).set i (getE l j) :=
        List.set_comm _ _ l (by omega)
      rw [hcomm]
      exact doubleSetPerm l j i hij hb.1
  · exact List.Perm.refl l

theorem insInner_perm (less : α → α → Bool) (l : List α) (a j fuel : Nat) :
    List.Perm (insInner less l a j fuel) l := by
  induction fuel generalizing l j with
  | zero => exact List.Perm.refl l
  | succ n ih =>
    rw [insInner]
    split
    · exact (ih _ _).trans (swapE_perm l j (j - 1))
    · exact List.Perm.refl l

theorem insOuter_perm (less : α → α → Bool) (l : List α) (a b i fuel : Nat) :
    List.Perm (insOuter less l a b i fuel) l := by
  induction fuel generalizing l i with
  | zero => exact List.Perm.refl l
  | succ n ih =>
    rw [insOuter]
    split
    · exact (ih _ _).trans (insInner_perm less l a i (i + 1))
    · exact List.Perm.refl l

theorem insertionSort_perm (less : α → α → Bool) (l : List α) (a b : Nat) :
    List.Perm (insertionSort less l a b) l :=
  insOuter_perm less l a b (a + 1) (b + 1)

theorem siftDownLoop_perm (less : α → α → Bool) (l : List α)
    (root hi first fuel : Nat) :
    List.Perm (siftDownLoop less l root hi first fuel) l := by
  induction fuel generalizing l root with
  | zero => exact List.Perm.refl l
  | succ n ih =>
    rw [siftDownLoop]
    dsimp only
    repeat' split
    all_goals
      first
        | exact List.Perm.refl l
        | exact (ih _ _).trans (swapE_perm l _ _)

theorem siftDown_perm (less : α → α → Bool) (l : List α) (lo hi first : Nat) :
    List.Perm (siftDown less l lo hi first) l :=
  siftDownLoop_perm less l lo hi first (hi + 2)

theorem heapBuild_perm (less : α → α → Bool) (l : List α) (i hi first fuel : Nat) :
    List.Perm (heapBuild less l i hi first fuel) l := by
  induction fuel generalizing l i with
  | zero => exact List.Perm.refl l
  | succ n ih =>
    rw [heapBuild]
    split
    · exact siftDown_perm less l i hi first
    · exact (ih _ _).trans (siftDown_perm less l i hi first)

theorem heapPop_perm (less : α → α → Bool) (l : List α) (i first fuel : Nat) :
    List.Perm (heapPop less l i first fuel) l := by
  induction fuel generalizing l i with
  | zero => exact List.Perm.refl l
  | succ n ih =>
    rw [heapPop]
    split
    · exact (siftDown_perm less _ 0 i first).trans (swapE_perm l first (first + i))
    · exact (ih _ _).trans
        ((siftDown_perm less _ 0 i first).trans (swapE_perm l first (first + i)))

theorem heapSort_perm (less : α → α → Bool) (l : List α) (a b : Nat) :
    List.Perm (heapSort less l a b) l := by
  unfold heapSort
  dsimp only
  split
  · exact heapBuild_perm less l _ _ _ _
  · exact (heapPop_perm less _ _ _ _).trans (heapBuild_perm less l _ _ _ _)

theorem revLoop_perm (less : α → α → Bool) (l : List α) (i j fuel : Nat) :
    List.Perm (revLoop less l i j fuel) l := by
  induction fuel generalizing l i j with
  | zero => exact List.Perm.refl l
  | succ n ih =>
    rw [revLoop]
    split
    · exact (ih _ _ _).trans (swapE_perm l i j)
    · exact List.Perm.refl l

theorem reverseRange_perm (less : α → α → Bool) (l : List α) (a b : Nat) :
    List.Perm (reverseRange less l a b) l :=
  revLoop_perm less l a (b - 1) b

theorem breakLoop_perm (less : α → α → Bool) (l : List α)
    (a len modulus idx rand i fuel : Nat) :
    List.Perm (breakLoop less l a len modulus idx rand i fuel) l := by
  induction fuel generalizing l rand i with
  | zero => exact List.Perm.refl l
  | succ n ih =>
    rw [breakLoop]
    split
    · exact (ih _ _ _).trans (swapE_perm l _ _)
    · exact List.Perm.refl l

theorem breakPtns_perm (less : α → α → Bool) (l : List α) (a b : Nat) :
    List.Perm (breakPtns less l a b) l := by
  unfold breakPtns
  dsimp only
  split
  · exact breakLoop_perm less l _ _ _ _ _ _ _
  · exact List.Perm.refl l

theorem partMain_perm (less : α → α → Bool) (l : List α) (a b i j fuel : Nat) :
    List.Perm (partMain less l a b i j fuel).1 l := by
  induction fuel generalizing l i j with
  | zero => exact List.Perm.refl l
  | succ n ih =>
    rw [partMain]
    split
    · exact List.Perm.refl l
    · exact (ih _ _ _).trans (swapE_perm l _ _)

theorem partition_perm (less : α → α → Bool) (l : List α) (a b pivot : Nat) :
    List.Perm (partition less l a b pivot).1 l := by
  unfold partition
  dsimp only
  split
  · exact (swapE_perm _ _ _).trans (swapE_perm l a pivot)
  · exact ((swapE_perm _ _ _).trans
      ((partMain_perm less _ a b _ _ _).trans (swapE_perm _ _ _))).trans
      (swapE_perm l a pivot)

theorem partEqLoop_perm (less : α → α → Bool) (l : List α) (a b i j fuel : Nat) :
    List.Perm (partEqLoop less l a b i j fuel).1 l := by
  induction fuel generalizing l i j with
  | zero => exact List.Perm.refl l
  | succ n ih =>
    rw [partEqLoop]
    split
    · exact List.Perm.refl l
    · exact (ih _ _ _).trans (swapE_perm l _ _)

theorem partitionEq_perm (less : α → α → Bool) (l : List α) (a b pivot : Nat) :
    List.Perm (partitionEq less l a b pivot).1 l :=
  (partEqLoop_perm less _ a b _ _ _).trans (swapE_perm l a pivot)

theorem pInsShiftL_perm (less : α → α → Bool) (l : List α) (j fuel : Nat) :
    List.Perm (pInsShiftL less l j fuel) l := by
  induction fuel generalizing l j with
  | zero => exact List.Perm.refl l
  | succ n ih =>
    rw [pInsShiftL]
    split
    · split
      · exact swapE_perm l _ _
      · exact (ih _ _).trans (swapE_perm l _ _)
    · exact List.Perm.refl l

theorem pInsShiftR_perm (less : α → α → Bool) (l : List α) (j b fuel : Nat) :
    List.Perm (pInsShiftR less l j b fuel) l := by
  induction fuel generalizing l j with
  | zero => exact List.Perm.refl l
  | succ n ih =>
    rw [pInsShiftR]
    split
    · exact (ih _ _).trans (swapE_perm l _ _)
    · exact List.Perm.refl l

omit [Inhabited α] in
theorem itePerm {c : Prop} [Decidable c] {x y z : List α}
    (hx : List.Perm x z) (hy : List.Perm y z) :
    List.Perm (if c then x else y) z := by
  split
  · exact hx
  · exact hy

theorem pInsSteps_perm (less : α → α → Bool) (l : List α)
    (a b i step fuel : Nat) :
    List.Perm (pInsSteps less l a b i step fuel).1 l := by
  induction fuel generalizing l i step with
  | zero => exact List.Perm.refl l
  | succ n ih =>
    rw [pInsSteps]
    dsimp only
    repeat' split
    all_goals
      first
        | exact List.Perm.refl l
        | exact (ih _ _ _).trans
            ((pInsShiftR_perm less _ _ _ _).trans
              ((pInsShiftL_perm less _ _ _).trans (swapE_perm l _ _)))
        | exact (ih _ _ _).trans
            ((pInsShiftR_perm less _ _ _ _).trans (swapE_perm l _ _))
        | exact (ih _ _ _).trans
            ((pInsShiftL_perm less _ _ _).trans (swapE_perm l _ _))
        | exact (ih _ _ _).trans (swapE_perm l _ _)

theorem pInsSort_perm (less : α → α → Bool) (l : List α) (a b : Nat) :
    List.Perm (pInsSort less l a b).1 l :=
  pInsSteps_perm less l a b (a + 1) 0 6

theorem pdqPrep_perm (less : α → α → Bool) (l : List α) (a b : Nat)
    (wasBalanced : Bool) :
    List.Perm (pdqPrep less l a b wasBalanced) l := by
  unfold pdqPrep
  exact itePerm (List.Perm.refl l) (breakPtns_perm less l a b)

theorem pdqMid_perm (less : α → α → Bool) (l1 : List α) (a b : Nat)
    (wasBalanced wasPartitioned : Bool) :
    List.Perm (pdqMid less l1 a b wasBalanced wasPartitioned).1 l1 := by
  unfold pdqMid
  dsimp only
  repeat' split
  all_goals
    first
      | exact List.Perm.refl l1
      | exact reverseRange_perm less l1 a b
      | exact (pInsSort_perm less _ _ _).trans (reverseRange_perm less l1 a b)
      | exact pInsSort_perm less l1 _ _

theorem pdqsort_perm (less : α → α → Bool) (l : List α)
    (a b limit : Nat) (wasBalanced wasPartitioned : Bool) (fuel : Nat) :
    List.Perm (pdqsort less l a b limit wasBalanced wasPartitioned fuel) l := by
  induction fuel generalizing l a b limit wasBalanced wasPartitioned with
  | zero => exact List.Perm.refl l
  | succ n ih =>
    rw [pdqsort]
    dsimp only
    have h3 : List.Perm
        (pdqMid less (pdqPrep less l a b wasBalanced) a b wasBalanced wasPartitioned).1 l :=
      (pdqMid_perm less _ a b wasBalanced wasPartitioned).trans
        (pdqPrep_perm less l a b wasBalanced)
    repeat' split
    all_goals
      first
        | exact insertionSort_perm less l a b
        | exact heapSort_perm less l a b
        | exact h3
        | exact (ih _ _ _ _ _ _).trans ((partitionEq_perm less _ a b _).trans h3)
        | exact (ih _ _ _ _ _ _).trans
            ((ih _ _ _ _ _ _).trans ((partition_perm less _ a b _).trans h3))

theorem sortSlice_perm (less : α → α → Bool) (l : List α) :
    List.Perm (sortSlice less l) l :=
  pdqsort_perm less l 0 l.length (bitsLen l.length) true true (4 * l.length + 16)

theorem mem_sortSlice {less : α → α → Bool} {l : List α} {x : α}
    (h : x ∈ sortSlice less l) : x ∈ l :=
  (sortSlice_perm less l).mem_iff.mp h

end GoSort

namespace CostCalc

instance : Inhabited CostResult :=
  ⟨{ model := "", provider := "", inputCost := 0, outputCost := 0, totalCost := 0 }⟩

/-- Accumulation loop of Go `compareModels`: trim each requested name,
resolve it with `calculateCost` under the shared token counts and cached
ratio, and skip names that resolve to no model. -/
def collectCompare (ps : List Provider) (names : List String)
    (inputTokens outputTokens : Int) (cachedRatio : ℚ) : List CostResult :=
  match names with
  | [] => []
  | n :: rest =>
    match calculateCost ps (goTrim n) inputTokens outputTokens cachedRatio with
    | some r => r :: collectCompare ps rest inputTokens outputTokens cachedRatio
    | none => collectCompare ps rest inputTokens outputTokens cachedRatio

/-- The comparator Go `compareModels` hands to `sort.Slice`:
`results[i].TotalCost < results[j].TotalCost`. -/
def totalLT (x y : CostResult) : Bool := x.totalCost < y.totalCost

/-- Go `compareModels`: resolve the requested models, then `sort.Slice`
the results ascending by total cost. -/
def compareModels (ps : List Provider) (names : List String)
    (inputTokens outputTokens : Int) (cachedRatio : ℚ) : List CostResult :=
  GoSort.sortSlice totalLT (collectCompare ps names inputTokens outputTokens cachedRatio)

end CostCalc

/-! ## Model finder (`examples/client-usage/find-models/main.go`) -/

namespace FindModels

/-- Go `modelMatch`. -/
structure ModelMatch where
  model : Model
  provider : Provider
  score : ℚ
deriving DecidableEq, Repr

instance : Inhabited ModelMatch :=
  ⟨{ model := { id := "", name := "", costPer1MIn := 0, costPer1MOut := 0,
                costPer1MInCached := 0, contextWindow := 0, canReason := false,
                supportsImages := false },
     provider := { id := "", name := "", models := [] }, score := 0 }⟩

/-- The per-candidate predicate of Go `filterModels`: a candidate survives
when none of its four `continue` branches fires. -/
def keepsModel (mm : ModelMatch) (maxCost : ℚ) (minContext : Int)
    (reasoning vision : Bool) : Bool :=
  !(maxCost > 0 && mm.model.costPer1MIn > maxCost) &&
  !(minContext > 0 && mm.model.contextWindow < minContext) &&
  !(reasoning && !mm.model.canReason) &&
  !(vision && !mm.model.supportsImages)

/-- Go `filterModels(models, maxCost, minContext, reasoning, vision)`:
append, in input order, every candidate that no filter rejects. -/
def filterModels (models : List ModelMatch) (maxCost : ℚ) (minContext : Int)
    (reasoning vision : Bool) : List ModelMatch :=
  models.filter (fun mm => keepsModel mm maxCost minContext reasoning vision)

/-- The score assignment in the loop body of Go `scoreModels` (the simple
policy): base 100; if `CostPer1MIn > 0` subtract `min(CostPer1MIn/10, 50)`;
+20 if `ContextWindow ≥ 200000` else +10 if `≥ 100000`; +15 if `CanReason`;
+10 if `SupportsImages`. -/
def scoreSimple (mm : ModelMatch) : ModelMatch :=
  let score : ℚ := 100
  let score := if mm.model.costPer1MIn > 0 then
      score - min (mm.model.costPer1MIn / 10) 50
    else score
  let score := if mm.model.contextWindow ≥ 200000 then score + 20
    else if mm.model.contextWindow ≥ 100000 then score + 10
    else score
  let score := if mm.model.canReason then score + 15 else score
  let score := if mm.model.supportsImages then score + 10 else score
  { mm with score := score }

/-- The comparator Go `scoreModels` hands to `sort.Slice`:
`models[i].score > models[j].score`. -/
def scoreGT (x y : ModelMatch) : Bool := x.score > y.score

/-- Go `scoreModels(models)`: assign every candidate its simple-policy
score, then `sort.Slice` by descending score. -/
def scoreModels (models : List ModelMatch) : List ModelMatch :=
  GoSort.sortSlice scoreGT (models.map scoreSimple)

end FindModels

/-! ## Requirement wizard (`examples/client-usage/model-selector/main.go`) -/

namespace Wizard

/-- Go `requirements`. -/
structure Requirements where
  budget : ℚ
  contextSize : Int
  reasoning : Bool
  vision : Bool
deriving DecidableEq, Repr

/-- Go `modelScore`. -/
structure ModelScore where
  model : Model
  provider : Provider
  score : ℚ
  reasons : List String
deriving DecidableEq, Repr

instance : Inhabited ModelScore :=
  ⟨{ model := { id := "", name := "", costPer1MIn := 0, costPer1MOut := 0,
                costPer1MInCached := 0, contextWindow := 0, canReason := false,
                supportsImages := false },
     provider := { id := "", name := "", models := [] }, score := 0,
     reasons := [] }⟩

/-- Go `step` (the wizard states, in declaration order). -/
inductive Step
  | budget
  | context
  | reasoning
  | vision
  | results
deriving DecidableEq, Repr

/-- Position of a state along the wizard's chain. -/
def Step.idx : Step → Nat
  | .budget => 0
  | .context => 1
  | .reasoning => 2
  | .vision => 3
  | .results => 4

/-- The wizard's bubbletea `model` struct.  The embedded `bubbles` list
component is abstracted to its selected index (`list.Index()`) and its item
count; `width`/`height` are rendering-only and omitted. -/
structure WizModel where
  allModels : List ModelScore
  step : Step
  reqs : Requirements
  listIndex : Nat
  listLen : Nat
  choices : List String
deriving DecidableEq, Repr

/-- Input events the wizard's `Update` distinguishes (`tea.KeyMsg` types and
the window-size message). -/
inductive WizMsg
  | ctrlC
  | esc
  | enter
  | up
  | down
  | winSize
  | other
deriving DecidableEq, Repr

/-- The two commands the wizard ever returns to bubbletea. -/
inductive WizCmd
  | none
  | quit
deriving DecidableEq, Repr

/-- Go `parseBudget`: the fixed budget tiers; the error case returns 0 (and
the caller discards the error). -/
def parseBudget (s : String) : ℚ :=
  match s with
  | "0" => 0
  | "0.5" => 1 / 2
  | "1.0" => 1
  | "5.0" => 5
  | "10.0" => 10
  | "1000" => 1000
  | _ => 0

/-- Go `parseContext`: the fixed context tiers; the error case returns 0
(and the caller discards the error). -/
def parseContext (s : String) : Int :=
  match s with
  | "0" => 0
  | "32000" => 32000
  | "100000" => 100000
  | "200000" => 200000
  | "400000" => 400000
  | _ => 0

/-- Go `initialModel`: budget question with six tiers. -/
def initialModel (allModels : List ModelScore) : WizModel :=
  { allModels := allModels, step := Step.budget,
    reqs := { budget := 0, contextSize := 0, reasoning := false, vision := false },
    listIndex := 0, listLen := 6,
    choices := ["0", "0.5", "1.0", "5.0", "10.0", "1000"] }

/-- Go `setupContextList`. -/
def setupContextList (m : WizModel) : WizModel :=
  { m with listIndex := 0, listLen := 5,
           choices := ["0", "32000", "100000", "200000", "400000"] }

/-- Go `setupReasoningList`. -/
def setupReasoningList (m : WizModel) : WizModel :=
  { m with listIndex := 0, listLen := 2, choices := ["yes", "no"] }

/-- Go `setupVisionList`. -/
def setupVisionList (m : WizModel) : WizModel :=
  { m with listIndex := 0, listLen := 2, choices := ["yes", "no"] }

/-- The score-and-reasons assignment in the loop body of Go
`calculateScores` (the requirement-weighted policy). -/
def scoreWeighted (reqs : Requirements) (ms : ModelScore) : ModelScore :=
  let score : ℚ := 100
  let reasons : List String := []
  let (score, reasons) :=
    if reqs.budget > 0 ∧ ms.model.costPer1MIn > reqs.budget then
      (score - 100, reasons ++ ["Over budget"])
    else if ms.model.costPer1MIn ≤ reqs.budget / 2 then
      (score + 30, reasons ++ ["Well under budget"])
    else (score, reasons)
  let (score, reasons) :=
    if ms.model.contextWindow ≥ reqs.contextSize then
      (score + 20, reasons ++ ["Meets context requirement"])
    else (score - 50, reasons ++ ["Below context requirement"])
  let (score, reasons) :=
    if reqs.reasoning then
      if ms.model.canReason then (score + 25, reasons ++ ["Has reasoning"])
      else (score - 50, reasons ++ ["No reasoning"])
    else (score, reasons)
  let (score, reasons) :=
    if reqs.vision then
      if ms.model.supportsImages then (score + 25, reasons ++ ["Has vision"])
      else (score - 50, reasons ++ ["No vision"])
    else (score, reasons)
  { ms with score := score, reasons := reasons }

/-- The comparator Go `calculateScores` hands to `sort.Slice`:
`allModels[i].score > allModels[j].score`. -/
def wScoreGT (x y : ModelScore) : Bool := x.score > y.score

/-- Go `calculateScores`: score every entry of `m.allModels` under the
current requirements, then `sort.Slice` by descending score. -/
def calculateScores (m : WizModel) : WizModel :=
  { m with allModels :=
      GoSort.sortSlice wScoreGT (m.allModels.map (scoreWeighted m.reqs)) }

/-- Go `setupResultsList`: builds the display list of the top
`min(5, len(allModels))` entries; only the list component changes. -/
def setupResultsList (m : WizModel) : WizModel :=
  { m with listIndex := 0, listLen := min 5 m.allModels.length, choices := [] }

/-- Go `handleEnter`: read the selected choice, record it into the
requirements, advance one step (scoring on entry to the results step);
Enter on the results step quits. -/
def handleEnter (m : WizModel) : WizModel × WizCmd :=
  let choice := m.choices.getD m.listIndex ""
  match m.step with
  | Step.budget =>
    let m := { m with reqs := { m.reqs with budget := parseBudget choice },
                      step := Step.context }
    (setupContextList m, WizCmd.none)
  | Step.context =>
    let m := { m with reqs := { m.reqs with contextSize := parseContext choice },
                      step := Step.reasoning }
    (setupReasoningList m, WizCmd.none)
  | Step.reasoning =>
    let m := { m with reqs := { m.reqs with reasoning := choice == "yes" },
                      step := Step.vision }
    (setupVisionList m, WizCmd.none)
  | Step.vision =>
    let m := { m with reqs := { m.reqs with vision := choice == "yes" },
                      step := Step.results }
    (setupResultsList (calculateScores m), WizCmd.none)
  | Step.results => (m, WizCmd.quit)

/-- Cursor movement of the embedded bubbles list component on Up/Down keys
(modelled: clamped single-step movement; the wizard routes only these two
keys to the list). -/
def listMove (m : WizModel) (msg : WizMsg) : WizModel :=
  match msg with
  | WizMsg.up => { m with listIndex := m.listIndex - 1 }
  | WizMsg.down => { m with listIndex := min (m.listIndex + 1) (m.listLen - 1) }
  | _ => m

/-- Go `Update`: Ctrl-C/Esc quit, Enter confirms, Up/Down move the list
cursor, everything else (window size, other keys) is ignored. -/
def update (m : WizModel) (msg : WizMsg) : WizModel × WizCmd :=
  match msg with
  | WizMsg.ctrlC => (m, WizCmd.quit)
  | WizMsg.esc => (m, WizCmd.quit)
  | WizMsg.enter => handleEnter m
  | WizMsg.up => (listMove m WizMsg.up, WizCmd.none)
  | WizMsg.down => (listMove m WizMsg.down, WizCmd.none)
  | WizMsg.winSize => (m, WizCmd.none)
  | WizMsg.other => (m, WizCmd.none)

/-- Run the wizard over a sequence of input events (the bubbletea event
loop, one consumed event per transition). -/
def runEvents (m : WizModel) (msgs : List WizMsg) : WizModel :=
  msgs.foldl (fun acc msg => (update acc msg).1) m

end Wizard

/-! ## Chat session tracker (`examples/client-usage/chat-bot/main.go`) -/

namespace ChatBot

/-- Message roles of the OpenAI chat API used by the session. -/
inductive Role
  | system
  | user
  | assistant
deriving DecidableEq, Repr

/-- One entry of the session's ordered message history. -/
structure ChatMessage where
  role : Role
  content : String
deriving DecidableEq, Repr

/-- Go `chatSession` (the `client`, `provider` and `model` handles are
configuration fixed at session start; the mutable state is below). -/
structure ChatSession where
  messages : List ChatMessage
  totalTokens : Int
  totalCost : ℚ
deriving DecidableEq, Repr

/-- Go `apiResponse`. -/
structure ApiResponse where
  content : String
  inputTokens : Int
  outputTokens : Int
  cost : ℚ
deriving DecidableEq, Repr

/-- Go `handleCommand(session, cmd)`: switch on `strings.ToLower(cmd)`.
Returns the session and `true` to continue (`false` for the quit
commands).  Only `/clear` mutates the session: history is truncated to the
leading system message when one is present, to empty otherwise. -/
def handleCommand (session : ChatSession) (cmd : String) : ChatSession × Bool :=
  match goToLower cmd with
  | "/quit" | "/exit" | "/q" => (session, false)
  | "/clear" =>
    let systemMsg : List ChatMessage :=
      match session.messages with
      | m :: _ => if m.role = Role.system then session.messages.take 1 else []
      | [] => []
    ({ session with messages := systemMsg }, true)
  | "/cost" => (session, true)
  | "/help" => (session, true)
  | _ => (session, true)

/-- One iteration of Go `runChatLoop` on a read line: trim; skip empty
input; dispatch `/`-commands to `handleCommand`; otherwise append the user
message, make the external completion call (`call` is its outcome), and on
failure remove the just-appended user message, on success append the
assistant reply and add its tokens and cost to the running totals.  The
returned flag is whether the loop continues. -/
def chatStep (session : ChatSession) (rawInput : String)
    (call : Except String ApiResponse) : ChatSession × Bool :=
  let input := goTrim rawInput
  if input = "" then (session, true)
  else if goHasPre input "/" then handleCommand session input
  else
    let afterUser : ChatSession :=
      { session with messages := session.messages ++ [⟨Role.user, input⟩] }
    match call with
    | Except.error _ =>
      ({ afterUser with messages := afterUser.messages.dropLast }, true)
    | Except.ok resp =>
      ({ afterUser with
          messages := afterUser.messages ++ [⟨Role.assistant, resp.content⟩],
          totalTokens := afterUser.totalTokens + (resp.inputTokens + resp.outputTokens),
          totalCost := afterUser.totalCost + resp.cost }, true)

end ChatBot


/-! ## Fixtures: a small concrete catalog used by witnesses and examples -/

/-- A concrete catalog model matching the specification's §8 cost scenario:
cost-in $2.50/1M, cost-out $10/1M, cached-in $1.25/1M. -/
def modelA : Catwalk.Model :=
  { id := "model-a", name := "A", costPer1MIn := 5 / 2, costPer1MOut := 10,
    costPer1MInCached := 5 / 4, contextWindow := 128000, canReason := false,
    supportsImages := false }

/-- A provider owning `modelA`. -/
def provP : Catwalk.Provider := { id := "prov", name := "P", models := [modelA] }

/-- A one-provider catalog. -/
def demoProviders : List Catwalk.Provider := [provP]

/-! ## C7: filter soundness -/

/-- Characterisation of the survivor predicate of `filterModels`: a
candidate passes exactly when every active constraint holds for it. -/
theorem keepsModel_iff (mm : FindModels.ModelMatch) (maxCost : ℚ)
    (minContext : Int) (reasoning vision : Bool) :
    FindModels.keepsModel mm maxCost minContext reasoning vision = true ↔
      ((maxCost > 0 → mm.model.costPer1MIn ≤ maxCost) ∧
       (minContext > 0 → mm.model.contextWindow ≥ minContext) ∧
       (reasoning = true → mm.model.canReason = true) ∧
       (vision = true → mm.model.supportsImages = true)) := by
  simp only [FindModels.keepsModel, Bool.and_eq_true, Bool.not_eq_true',
    Bool.and_eq_false_iff, decide_eq_false_iff_not, not_lt, Bool.not_eq_false]
  constructor
  · rintro ⟨⟨⟨hB, hC⟩, hR⟩, hV⟩
    refine ⟨fun h => ?_, fun h => ?_, fun h => ?_, fun h => ?_⟩
    · rcases hB with h0 | h0
      · linarith
      · exact h0
    · rcases hC with h0 | h0
      · omega
      · omega
    · rcases hR with h0 | h0
      · rw [h] at h0; cases h0
      · simpa using h0
    · rcases hV with h0 | h0
      · rw [h] at h0; cases h0
      · simpa using h0
  · rintro ⟨h1, h2, h3, h4⟩
    refine ⟨⟨⟨?_, ?_⟩, ?_⟩, ?_⟩
    · rcases le_or_lt maxCost 0 with h | h
      · exact Or.inl h
      · exact Or.inr (h1 h)
    · rcases le_or_lt minContext 0 with h | h
      · exact Or.inl h
      · exact Or.inr (h2 h)
    · cases hr : reasoning with
      | false => exact Or.inl rfl
      | true => exact Or.inr (by simpa using h3 hr)
    · cases hv : vision with
      | false => exact Or.inl rfl
      | true => exact Or.inr (by simpa using h4 hv)

/-- C7: the filter engine applies AND-combined predicates — cost ≤ budget
(skipped when budget ≤ 0), context ≥ minimum (skipped when minimum ≤ 0),
reasoning required implies reasoning-capable, vision required implies
vision-capable — every surviving candidate satisfies all active
constraints, the output is a subsequence of the input preserving relative
order, and every survivor is an unmodified element of the input. -/
theorem C7_filter_sound (models : List FindModels.ModelMatch) (maxCost : ℚ)
    (minContext : Int) (reasoning vision : Bool) :
    (∀ mm ∈ FindModels.filterModels models maxCost minContext reasoning vision,
        (maxCost > 0 → mm.model.costPer1MIn ≤ maxCost) ∧
        (minContext > 0 → mm.model.contextWindow ≥ minContext) ∧
        (reasoning = true → mm.model.canReason = true) ∧
        (vision = true → mm.model.supportsImages = true) ∧
        mm ∈ models) ∧
    (FindModels.filterModels models maxCost minContext reasoning vision).Sublist
      models := by
  constructor
  · intro mm hmm
    have hmem := List.mem_filter.mp hmm
    have hpred := (keepsModel_iff mm maxCost minContext reasoning vision).mp hmem.2
    exact ⟨hpred.1, hpred.2.1, hpred.2.2.1, hpred.2.2.2, hmem.1⟩
  · exact List.filter_sublist models

/-- A candidate fixture surviving the witness filter call. -/
def survivor : FindModels.ModelMatch :=
  { model := { id := "s", name := "S", costPer1MIn := 1, costPer1MOut := 1,
               costPer1MInCached := 0, contextWindow := 200000, canReason := true,
               supportsImages := true },
    provider := provP, score := 0 }

/-- C7 witness: at a concrete catalog and active budget/context filters, a
survivor indeed satisfies the budget bound. -/
theorem C7_filter_sound_witness : survivor.model.costPer1MIn ≤ 1 := by
  have hmem : survivor ∈ FindModels.filterModels [survivor] 1 100000 true true := by
    rw [show FindModels.filterModels [survivor] 1 100000 true true = [survivor]
      from rfl]
    exact List.mem_singleton_self survivor
  exact (((C7_filter_sound [survivor] 1 100000 true true).1 survivor hmem).1)
    (by norm_num)

/-! ## C9: simple-policy score monotonicity in the context window -/

/-- C9: under the simple scoring policy, holding input cost and the
capability flags fixed, a candidate with context window ≥ 200000 scores at
least as high as one with context window in [100000, 200000). -/
theorem C9_simple_score_monotone (m1 m2 : FindModels.ModelMatch)
    (hcost : m1.model.costPer1MIn = m2.model.costPer1MIn)
    (hr : m1.model.canReason = m2.model.canReason)
    (hv : m1.model.supportsImages = m2.model.supportsImages)
    (h1 : m1.model.contextWindow ≥ 200000)
    (h2lo : 100000 ≤ m2.model.contextWindow)
    (h2hi : m2.model.contextWindow < 200000) :
    (FindModels.scoreSimple m2).score ≤ (FindModels.scoreSimple m1).score := by
  simp only [FindModels.scoreSimple]
  rw [hcost, hr, hv]
  rw [if_pos h1, if_neg (by omega : ¬ m2.model.contextWindow ≥ 200000),
    if_pos (by omega : m2.model.contextWindow ≥ 100000)]
  split_ifs <;> linarith

/-- A large-context candidate fixture. -/
def bigCtx : FindModels.ModelMatch :=
  { model := { id := "b", name := "B", costPer1MIn := 3, costPer1MOut := 1,
               costPer1MInCached := 0, contextWindow := 400000, canReason := true,
               supportsImages := false },
    provider := provP, score := 0 }

/-- A mid-context candidate fixture, same cost and flags as `bigCtx`. -/
def midCtx : FindModels.ModelMatch :=
  { model := { id := "c", name := "C", costPer1MIn := 3, costPer1MOut := 1,
               costPer1MInCached := 0, contextWindow := 150000, canReason := true,
               supportsImages := false },
    provider := provP, score := 0 }

/-- C9 witness: concrete candidates with context 150000 and 400000. -/
theorem C9_simple_score_monotone_witness :
    (FindModels.scoreSimple midCtx).score ≤ (FindModels.scoreSimple bigCtx).score :=
  C9_simple_score_monotone bigCtx midCtx rfl rfl rfl (by decide) (by decide)
    (by decide)

/-! ## C3: the cost formula and the specification's cost scenario -/

/-- C3: for every resolved model and scenario, the estimator bills
`cachedRatio * inputTokens` at the cached input rate and the remaining
`(1 - cachedRatio) * inputTokens` at the standard input rate, bills all
output tokens at the standard output rate regardless of the cached ratio,
and returns `totalCost = inputCost + outputCost`; at the specification's
scenario (cost-in $2.50/1M, cost-out $10/1M, cached-in $1.25/1M, 1000 in,
500 out, ratio 0.5) it returns inputCost 0.001875 = 3/1600, outputCost
0.005 = 1/200, totalCost 0.006875 = 11/1600. -/
theorem C3_cost_formula (ps : List Provider) (name : String)
    (tin tout : Int) (ratio : ℚ) (m : Model) (p : Provider)
    (r : CostCalc.CostResult)
    (hfind : CostCalc.findModel ps name = some (m, p))
    (hcalc : CostCalc.calculateCost ps name tin tout ratio = some r) :
    (r.inputCost = ratio * (tin : ℚ) * m.costPer1MInCached / 1000000 +
        ((tin : ℚ) - ratio * (tin : ℚ)) * m.costPer1MIn / 1000000 ∧
      r.outputCost = (tout : ℚ) * m.costPer1MOut / 1000000 ∧
      r.totalCost = r.inputCost + r.outputCost) ∧
    CostCalc.calculateCost demoProviders "model-a" 1000 500 (1 / 2) =
      some { model := "A", provider := "P", inputCost := 3 / 1600,
             outputCost := 1 / 200, totalCost := 11 / 1600 } := by
  constructor
  · rw [CostCalc.calculateCost, hfind] at hcalc
    simp only [Option.some.injEq] at hcalc
    subst hcalc
    exact ⟨by ring, by ring, rfl⟩
  · rw [CostCalc.calculateCost,
      show CostCalc.findModel demoProviders "model-a" = some (modelA, provP)
        from rfl]
    simp only [Option.some.injEq, CostCalc.CostResult.mk.injEq, modelA, provP]
    norm_num

/-- C3 witness: the formula instantiated at the fixture catalog and the
specification's scenario numbers. -/
theorem C3_cost_formula_witness :
    (3 / 1600 : ℚ) = (1 / 2) * (1000 : ℚ) * modelA.costPer1MInCached / 1000000 +
        ((1000 : ℚ) - (1 / 2) * (1000 : ℚ)) * modelA.costPer1MIn / 1000000 ∧
    (1 / 200 : ℚ) = (500 : ℚ) * modelA.costPer1MOut / 1000000 := by
  have hscenario :
      CostCalc.calculateCost demoProviders "model-a" 1000 500 (1 / 2) =
        some { model := "A", provider := "P", inputCost := 3 / 1600,
               outputCost := 1 / 200, totalCost := 11 / 1600 } :=
    (C3_cost_formula demoProviders "model-a" 1000 500 (1 / 2) modelA provP
      { model := "A", provider := "P", inputCost := 3 / 1600,
        outputCost := 1 / 200, totalCost := 11 / 1600 } rfl
      (by rw [CostCalc.calculateCost,
            show CostCalc.findModel demoProviders "model-a" = some (modelA, provP)
              from rfl]
          simp only [Option.some.injEq, CostCalc.CostResult.mk.injEq, modelA, provP]
          norm_num)).2
  have h := (C3_cost_formula demoProviders "model-a" 1000 500 (1 / 2) modelA provP
    { model := "A", provider := "P", inputCost := 3 / 1600,
      outputCost := 1 / 200, totalCost := 11 / 1600 } rfl hscenario).1
  exact ⟨h.1, h.2.1⟩

/-! ## C2: CostResult sign properties

The program accepts any `--cached` ratio without clamping or rejection
(`cachedRatio = flag.Float64("cached", 0, ...)` is used as parsed), so a
ratio above 1 makes the uncached share of the input tokens negative and can
drive the input cost below zero.  The non-negativity part of the claim
therefore fails as stated; it holds once the ratio is restricted to [0, 1]
(with non-negative token counts and catalog prices), and the total is
always the sum of the parts. -/

/-- A catalog model whose cached input rate is 0 while its standard input
rate is positive. -/
def cheapModel : Catwalk.Model :=
  { id := "cheap", name := "Cheap", costPer1MIn := 5 / 2, costPer1MOut := 0,
    costPer1MInCached := 0, contextWindow := 0, canReason := false,
    supportsImages := false }

/-- A provider owning `cheapModel`. -/
def provX : Catwalk.Provider := { id := "x", name := "X", models := [cheapModel] }

/-- The catalog for the C2 counterexample. -/
def cexProviders : List Catwalk.Provider := [provX]

/-- C2 counterexample: at cachedRatio 2 — a value the program accepts —
the cost estimator returns a negative input cost (and a negative total),
refuting the claim that every produced CostResult is non-negative for all
accepted cachedRatio values. -/
theorem C2_nonneg_counterexample :
    CostCalc.calculateCost cexProviders "cheap" 1000 500 2 =
      some { model := "Cheap", provider := "X", inputCost := -(1 / 400),
             outputCost := 0, totalCost := -(1 / 400) } ∧
    ¬ (0 ≤ (-(1 / 400) : ℚ)) := by
  constructor
  · rw [CostCalc.calculateCost,
      show CostCalc.findModel cexProviders "cheap" = some (cheapModel, provX)
        from rfl]
    simp only [Option.some.injEq, CostCalc.CostResult.mk.injEq, cheapModel, provX]
    norm_num
  · norm_num

/-- Membership of the model found by the inner lookup loop. -/
theorem findInModels_mem (ms : List Model) (name : String) (m : Model)
    (h : CostCalc.findInModels ms name = some m) : m ∈ ms := by
  induction ms with
  | nil => simp [CostCalc.findInModels] at h
  | cons x rest ih =>
    rw [CostCalc.findInModels] at h
    split at h
    · cases h
      exact List.mem_cons_self _ _
    · exact List.mem_cons_of_mem _ (ih h)

/-- Membership of the pair found by the model lookup. -/
theorem findModel_mem (ps : List Provider) (name : String) (m : Model)
    (p : Provider) (h : CostCalc.findModel ps name = some (m, p)) :
    p ∈ ps ∧ m ∈ p.models := by
  induction ps with
  | nil => simp [CostCalc.findModel] at h
  | cons q rest ih =>
    rw [CostCalc.findModel] at h
    split at h
    · next m2 heq =>
      simp only [Option.some.injEq, Prod.mk.injEq] at h
      obtain ⟨rfl, rfl⟩ := h
      exact ⟨List.mem_cons_self _ _, findInModels_mem _ name _ heq⟩
    · obtain ⟨hp, hm⟩ := ih h
      exact ⟨List.mem_cons_of_mem q hp, hm⟩

/-- All catalog prices are non-negative. -/
def PricesNonneg (ps : List Provider) : Prop :=
  ∀ p ∈ ps, ∀ m ∈ p.models,
    0 ≤ m.costPer1MIn ∧ 0 ≤ m.costPer1MOut ∧ 0 ≤ m.costPer1MInCached

/-- Sign and sum facts for one `calculateCost` result under non-negative
prices, non-negative token counts and a cached ratio in [0, 1]. -/
theorem calculateCost_ok (ps : List Provider) (name : String)
    (tin tout : Int) (ratio : ℚ) (r : CostCalc.CostResult)
    (hp : PricesNonneg ps) (htin : 0 ≤ tin) (htout : 0 ≤ tout)
    (h0 : 0 ≤ ratio) (h1 : ratio ≤ 1)
    (hr : CostCalc.calculateCost ps name tin tout ratio = some r) :
    0 ≤ r.inputCost ∧ 0 ≤ r.outputCost ∧ 0 ≤ r.totalCost ∧
      r.totalCost = r.inputCost + r.outputCost := by
  cases hfind : CostCalc.findModel ps name with
  | none => rw [CostCalc.calculateCost, hfind] at hr; cases hr
  | some mp =>
    obtain ⟨m, p⟩ := mp
    obtain ⟨hpmem, hmmem⟩ := findModel_mem ps name m p hfind
    obtain ⟨hci, hco, hcc⟩ := hp p hpmem m hmmem
    rw [CostCalc.calculateCost, hfind] at hr
    simp only [Option.some.injEq] at hr
    subst hr
    have htin2 : (0 : ℚ) ≤ (tin : ℚ) := by exact_mod_cast htin
    have htout2 : (0 : ℚ) ≤ (tout : ℚ) := by exact_mod_cast htout
    have h1r : (0 : ℚ) ≤ 1 - ratio := by linarith
    have hin : (0 : ℚ) ≤ (tin : ℚ) * (1 - ratio) * m.costPer1MIn / 1000000 +
        (tin : ℚ) * ratio * m.costPer1MInCached / 1000000 := by
      have ha := div_nonneg
        (mul_nonneg (mul_nonneg htin2 h1r) hci) (by norm_num : (0:ℚ) ≤ 1000000)
      have hb := div_nonneg
        (mul_nonneg (mul_nonneg htin2 h0) hcc) (by norm_num : (0:ℚ) ≤ 1000000)
      linarith
    have hout : (0 : ℚ) ≤ (tout : ℚ) * m.costPer1MOut / 1000000 :=
      div_nonneg (mul_nonneg htout2 hco) (by norm_num)
    exact ⟨hin, hout, by linarith, rfl⟩

/-- Members of a batch run are `calculateCost` results of batch scenarios. -/
theorem processBatch_mem (ps : List Provider) (scns : List CostCalc.Scenario)
    (r : CostCalc.CostResult) (h : r ∈ CostCalc.processBatch ps scns) :
    ∃ s ∈ scns, CostCalc.calculateCost ps s.model s.inputTokens s.outputTokens
      s.cachedRatio = some r := by
  induction scns with
  | nil => simp [CostCalc.processBatch] at h
  | cons s rest ih =>
    rw [CostCalc.processBatch] at h
    split at h
    · next r2 heq =>
      rcases List.mem_cons.mp h with rfl | hmem
      · exact ⟨s, List.mem_cons_self s rest, heq⟩
      · obtain ⟨s2, hs2, hc⟩ := ih hmem
        exact ⟨s2, List.mem_cons_of_mem s hs2, hc⟩
    · obtain ⟨s2, hs2, hc⟩ := ih h
      exact ⟨s2, List.mem_cons_of_mem s hs2, hc⟩

/-- Members of the pre-sort comparison list are `calculateCost` results of
trimmed requested names. -/
theorem collectCompare_mem (ps : List Provider) (names : List String)
    (tin tout : Int) (ratio : ℚ) (r : CostCalc.CostResult)
    (h : r ∈ CostCalc.collectCompare ps names tin tout ratio) :
    ∃ n ∈ names, CostCalc.calculateCost ps (goTrim n) tin tout ratio = some r := by
  induction names with
  | nil => simp [CostCalc.collectCompare] at h
  | cons n rest ih =>
    rw [CostCalc.collectCompare] at h
    split at h
    · next r2 heq =>
      rcases List.mem_cons.mp h with rfl | hmem
      · exact ⟨n, List.mem_cons_self n rest, heq⟩
      · obtain ⟨n2, hn2, hc⟩ := ih hmem
        exact ⟨n2, List.mem_cons_of_mem n hn2, hc⟩
    · obtain ⟨n2, hn2, hc⟩ := ih h
      exact ⟨n2, List.mem_cons_of_mem n hn2, hc⟩

/-- C2 amended: every CostResult's total is the sum of its input and output
costs, and in all three modes (single, compare, batch) all three costs are
non-negative provided the catalog prices are non-negative, the token counts
are non-negative, and the cached ratio lies in [0, 1] — the restriction the
unclamped `--cached` flag forces. -/
theorem C2_amended_nonneg (ps : List Provider) (hp : PricesNonneg ps) :
    (∀ name tin tout ratio r,
        CostCalc.calculateCost ps name tin tout ratio = some r →
        r.totalCost = r.inputCost + r.outputCost) ∧
    (∀ name tin tout ratio r, 0 ≤ tin → 0 ≤ tout → 0 ≤ ratio → ratio ≤ 1 →
        CostCalc.calculateCost ps name tin tout ratio = some r →
        0 ≤ r.inputCost ∧ 0 ≤ r.outputCost ∧ 0 ≤ r.totalCost) ∧
    (∀ scns, (∀ s ∈ scns, 0 ≤ s.inputTokens ∧ 0 ≤ s.outputTokens ∧
          0 ≤ s.cachedRatio ∧ s.cachedRatio ≤ 1) →
        ∀ r ∈ CostCalc.processBatch ps scns,
          0 ≤ r.inputCost ∧ 0 ≤ r.outputCost ∧ 0 ≤ r.totalCost ∧
            r.totalCost = r.inputCost + r.outputCost) ∧
    (∀ names tin tout ratio, 0 ≤ tin → 0 ≤ tout → 0 ≤ ratio → ratio ≤ 1 →
        ∀ r ∈ CostCalc.compareModels ps names tin tout ratio,
          0 ≤ r.inputCost ∧ 0 ≤ r.outputCost ∧ 0 ≤ r.totalCost ∧
            r.totalCost = r.inputCost + r.outputCost) := by
  refine ⟨?_, ?_, ?_, ?_⟩
  · intro name tin tout ratio r hr
    cases hfind : CostCalc.findModel ps name with
    | none => rw [CostCalc.calculateCost, hfind] at hr; cases hr
    | some mp =>
      rw [CostCalc.calculateCost, hfind] at hr
      simp only [Option.some.injEq] at hr
      subst hr
      rfl
  · intro name tin tout ratio r htin htout h0 h1 hr
    have h := calculateCost_ok ps name tin tout ratio r hp htin htout h0 h1 hr
    exact ⟨h.1, h.2.1, h.2.2.1⟩
  · intro scns hscn r hr
    obtain ⟨s, hs, hc⟩ := processBatch_mem ps scns r hr
    obtain ⟨ht1, ht2, ht3, ht4⟩ := hscn s hs
    exact calculateCost_ok ps s.model s.inputTokens s.outputTokens s.cachedRatio r
      hp ht1 ht2 ht3 ht4 hc
  · intro names tin tout ratio htin htout h0 h1 r hr
    obtain ⟨n, hn, hc⟩ := collectCompare_mem ps names tin tout ratio r
      (GoSort.mem_sortSlice hr)
    exact calculateCost_ok ps (goTrim n) tin tout ratio r hp htin htout h0 h1 hc

/-- The CostResult of the specification's §8 scenario. -/
def resA : CostCalc.CostResult :=
  { model := "A", provider := "P", inputCost := 3 / 1600, outputCost := 1 / 200,
    totalCost := 11 / 1600 }

/-- C2 witness: the amended theorem applied at the fixture catalog and the
specification's scenario. -/
theorem C2_amended_nonneg_witness :
    0 ≤ resA.inputCost ∧ 0 ≤ resA.outputCost ∧ 0 ≤ resA.totalCost := by
  have hp : PricesNonneg demoProviders := by
    intro p hp m hm
    simp only [demoProviders, provP, List.mem_singleton] at hp
    subst hp
    simp only [List.mem_singleton] at hm
    subst hm
    refine ⟨by norm_num [modelA], by norm_num [modelA], by norm_num [modelA]⟩
  have hcalc : CostCalc.calculateCost demoProviders "model-a" 1000 500 (1 / 2)
      = some resA := by
    rw [CostCalc.calculateCost,
      show CostCalc.findModel demoProviders "model-a" = some (modelA, provP)
        from rfl]
    simp only [Option.some.injEq, CostCalc.CostResult.mk.injEq, modelA, provP, resA]
    norm_num
  exact (C2_amended_nonneg demoProviders hp).2.1 "model-a" 1000 500 (1 / 2) resA
    (by norm_num) (by norm_num) (by norm_num) (by norm_num) hcalc

/-! ## C4: batch isolation -/

/-- A batch scenario whose model id resolves in the fixture catalog. -/
def goodScn : CostCalc.Scenario :=
  { model := "model-a", inputTokens := 1000, outputTokens := 500, cachedRatio := 0 }

/-- A batch scenario whose model id is unknown in the fixture catalog. -/
def badScn : CostCalc.Scenario :=
  { model := "zzz", inputTokens := 10, outputTokens := 10, cachedRatio := 0 }

/-- The CostResult of `goodScn` against the fixture catalog. -/
def goodResult : CostCalc.CostResult :=
  { model := "A", provider := "P", inputCost := 1 / 400, outputCost := 1 / 200,
    totalCost := 3 / 400 }

/-- C4: batch processing resolves each scenario independently — the batch
result is exactly the scenario-ordered list of results of the resolvable
scenarios (`filterMap` of per-scenario resolution), every result arises
from some scenario, and a concrete two-entry batch whose first entry has an
unknown model id yields exactly the one CostResult of the known model
without aborting. -/
theorem C4_batch_isolation (ps : List Provider) (scns : List CostCalc.Scenario) :
    (CostCalc.processBatch ps scns = scns.filterMap
        (fun s => CostCalc.calculateCost ps s.model s.inputTokens s.outputTokens
          s.cachedRatio)) ∧
    (∀ r ∈ CostCalc.processBatch ps scns, ∃ s ∈ scns,
        CostCalc.calculateCost ps s.model s.inputTokens s.outputTokens
          s.cachedRatio = some r) ∧
    CostCalc.processBatch demoProviders [badScn, goodScn] = [goodResult] := by
  refine ⟨?_, processBatch_mem ps scns, ?_⟩
  · induction scns with
    | nil => rfl
    | cons s rest ih =>
      rw [CostCalc.processBatch, List.filterMap_cons]
      cases hc : CostCalc.calculateCost ps s.model s.inputTokens s.outputTokens
          s.cachedRatio with
      | none => simpa using ih
      | some r => simpa using ih
  · have hbad : CostCalc.calculateCost demoProviders badScn.model
        badScn.inputTokens badScn.outputTokens badScn.cachedRatio = none := rfl
    have hgood : CostCalc.calculateCost demoProviders goodScn.model
        goodScn.inputTokens goodScn.outputTokens goodScn.cachedRatio
        = some goodResult := by
      rw [show goodScn.model = "model-a" from rfl,
        show goodScn.inputTokens = 1000 from rfl,
        show goodScn.outputTokens = 500 from rfl,
        show goodScn.cachedRatio = 0 from rfl,
        CostCalc.calculateCost,
        show CostCalc.findModel demoProviders "model-a" = some (modelA, provP)
          from rfl]
      simp only [Option.some.injEq, CostCalc.CostResult.mk.injEq, modelA, provP,
        goodResult]
      norm_num
    rw [CostCalc.processBatch, hbad, CostCalc.processBatch, hgood,
      CostCalc.processBatch]

/-- C4 witness: the sole result of the two-entry batch arises from one of
its scenarios. -/
theorem C4_batch_isolation_witness :
    ∃ s ∈ [badScn, goodScn],
      CostCalc.calculateCost demoProviders s.model s.inputTokens s.outputTokens
        s.cachedRatio = some goodResult := by
  have h := C4_batch_isolation demoProviders [badScn, goodScn]
  exact h.2.1 goodResult (by rw [h.2.2]; exact List.mem_singleton_self goodResult)

/-! ## C10: /clear and /cost leave the running totals unchanged -/

/-- C10: `/clear` truncates the history to at most the leading system
message (exactly the leading message when it is a system message, the
empty history otherwise) and leaves `totalTokens` and `totalCost`
unchanged; `/cost` changes neither history nor totals. -/
theorem C10_commands_frame (s : ChatBot.ChatSession) :
    (ChatBot.handleCommand s "/clear"
      = ({ s with messages :=
            match s.messages with
            | m :: _ =>
              if m.role = ChatBot.Role.system then s.messages.take 1 else []
            | [] => [] }, true)) ∧
    (ChatBot.handleCommand s "/clear").1.totalTokens = s.totalTokens ∧
    (ChatBot.handleCommand s "/clear").1.totalCost = s.totalCost ∧
    (ChatBot.handleCommand s "/clear").1.messages.length ≤ 1 ∧
    ChatBot.handleCommand s "/cost" = (s, true) := by
  refine ⟨rfl, rfl, rfl, ?_, rfl⟩
  show (match s.messages with
    | m :: _ => if m.role = ChatBot.Role.system then s.messages.take 1 else []
    | [] => []).length ≤ 1
  cases hm : s.messages with
  | nil => simp
  | cons m rest =>
    split
    · split <;> simp
    · simp

/-! ## C6: failed-exchange rollback -/

/-- C6: on a non-empty, non-command input line, the chat loop appends the
user message speculatively; when the external completion call fails, the
step returns the session exactly as it was before the exchange (history and
both running totals), and the loop continues to accept the next input. -/
theorem C6_rollback (s : ChatBot.ChatSession) (raw err : String)
    (hne : goTrim raw ≠ "") (hcmd : goHasPre (goTrim raw) "/" = false) :
    ChatBot.chatStep s raw (Except.error err) = (s, true) := by
  rw [ChatBot.chatStep]
  simp only [hne, if_false, hcmd, Bool.false_eq_true, reduceIte]
  simp [List.dropLast_concat]

/-- A concrete chat session fixture. -/
def session0 : ChatBot.ChatSession :=
  { messages := [{ role := ChatBot.Role.system, content := "be brief" },
                 { role := ChatBot.Role.user, content := "hi" },
                 { role := ChatBot.Role.assistant, content := "hello" }],
    totalTokens := 7, totalCost := 3 }

/-- C6 witness: a concrete failing exchange leaves the concrete session
untouched and the loop running. -/
theorem C6_rollback_witness :
    ChatBot.chatStep session0 "hello there" (Except.error "boom")
      = (session0, true) :=
  C6_rollback session0 "hello there" "boom" (by decide) (by decide)

/-! ## C8: the wizard only moves forward -/

/-- No single input event ever moves the wizard to an earlier state. -/
theorem wizard_step_mono (m : Wizard.WizModel) (msg : Wizard.WizMsg) :
    m.step.idx ≤ (Wizard.update m msg).1.step.idx := by
  cases msg with
  | enter =>
    simp only [Wizard.update, Wizard.handleEnter]
    cases hstep : m.step <;>
      simp [hstep, Wizard.Step.idx, Wizard.setupContextList,
        Wizard.setupReasoningList, Wizard.setupVisionList,
        Wizard.setupResultsList, Wizard.calculateScores]
  | ctrlC => exact le_refl _
  | esc => exact le_refl _
  | up => exact le_refl _
  | down => exact le_refl _
  | winSize => exact le_refl _
  | other => exact le_refl _

/-- Event sequences never move the wizard backward. -/
theorem wizard_run_mono (msgs : List Wizard.WizMsg) (m : Wizard.WizModel) :
    m.step.idx ≤ (Wizard.runEvents m msgs).step.idx := by
  induction msgs generalizing m with
  | nil => exact le_refl _
  | cons msg rest ih =>
    have h1 := wizard_step_mono m msg
    have h2 := ih (Wizard.update m msg).1
    simp only [Wizard.runEvents, List.foldl_cons] at h2 ⊢
    exact le_trans h1 h2

/-- C8: each consumed confirm event advances the wizard by exactly one step
along CollectBudget → CollectContext → CollectReasoning → CollectVision →
ShowResults; a confirm in ShowResults leaves the state unchanged and quits;
quitting happens exactly on Ctrl-C, Esc, or confirm-in-results; and no
event sequence ever decreases the step index. -/
theorem C8_wizard_forward (m : Wizard.WizModel) (msg : Wizard.WizMsg)
    (msgs : List Wizard.WizMsg) :
    ((Wizard.update m msg).1.step.idx =
      if msg = Wizard.WizMsg.enter ∧ m.step ≠ Wizard.Step.results
      then m.step.idx + 1 else m.step.idx) ∧
    ((Wizard.update m msg).2 = Wizard.WizCmd.quit ↔
      (msg = Wizard.WizMsg.ctrlC ∨ msg = Wizard.WizMsg.esc ∨
        (msg = Wizard.WizMsg.enter ∧ m.step = Wizard.Step.results))) ∧
    (msg = Wizard.WizMsg.enter → m.step = Wizard.Step.results →
      (Wizard.update m msg).1 = m) ∧
    m.step.idx ≤ (Wizard.runEvents m msgs).step.idx := by
  refine ⟨?_, ?_, ?_, wizard_run_mono msgs m⟩
  · cases msg with
    | enter =>
      simp only [Wizard.update, Wizard.handleEnter]
      cases hstep : m.step <;>
        simp [hstep, Wizard.Step.idx, Wizard.setupContextList,
          Wizard.setupReasoningList, Wizard.setupVisionList,
          Wizard.setupResultsList, Wizard.calculateScores]
    | ctrlC => simp [Wizard.update]
    | esc => simp [Wizard.update]
    | up => simp [Wizard.update, Wizard.listMove]
    | down => simp [Wizard.update, Wizard.listMove]
    | winSize => simp [Wizard.update]
    | other => simp [Wizard.update]
  · cases msg with
    | enter =>
      simp only [Wizard.update, Wizard.handleEnter]
      cases hstep : m.step <;>
        simp [hstep, Wizard.setupContextList, Wizard.setupReasoningList,
          Wizard.setupVisionList, Wizard.setupResultsList, Wizard.calculateScores]
    | ctrlC => simp [Wizard.update]
    | esc => simp [Wizard.update]
    | up => simp [Wizard.update, Wizard.listMove]
    | down => simp [Wizard.update, Wizard.listMove]
    | winSize => simp [Wizard.update]
    | other => simp [Wizard.update]
  · intro hmsg hstep
    subst hmsg
    simp only [Wizard.update, Wizard.handleEnter, hstep]

/-- C8 witness: from the initial (budget) state, a confirm advances the
wizard by exactly one step. -/
theorem C8_wizard_forward_witness :
    (Wizard.update (Wizard.initialModel []) Wizard.WizMsg.enter).1.step.idx =
      (Wizard.initialModel []).step.idx + 1 := by
  have h := (C8_wizard_forward (Wizard.initialModel []) Wizard.WizMsg.enter []).1
  rw [h, if_pos ⟨rfl, by decide⟩]

/-! ## C5: the ShowResults scoring pass -/

/-- The requirement-weighted score as the specification §4.2 words it:
base 100; if a budget is set and the cost exceeds it, −100; else if the
cost is at most half the budget, +30; +20 if the context meets the required
minimum else −50; if reasoning is required, +25 if capable else −50; if
vision is required, +25 if capable else −50. -/
def specWeightedScore (reqs : Wizard.Requirements) (m : Catwalk.Model) : ℚ :=
  100 +
    (if reqs.budget > 0 ∧ m.costPer1MIn > reqs.budget then -100
     else if m.costPer1MIn ≤ reqs.budget / 2 then 30 else 0) +
    (if m.contextWindow ≥ reqs.contextSize then 20 else -50) +
    (if reqs.reasoning then if m.canReason then 25 else -50 else 0) +
    (if reqs.vision then if m.supportsImages then 25 else -50 else 0)

/-- The reason labels appended by the triggered rules, in rule order, as
the specification words them (labels as in the code). -/
def specWeightedReasons (reqs : Wizard.Requirements) (m : Catwalk.Model) :
    List String :=
  (if reqs.budget > 0 ∧ m.costPer1MIn > reqs.budget then ["Over budget"]
   else if m.costPer1MIn ≤ reqs.budget / 2 then ["Well under budget"] else []) ++
  (if m.contextWindow ≥ reqs.contextSize then ["Meets context requirement"]
   else ["Below context requirement"]) ++
  (if reqs.reasoning then
    if m.canReason then ["Has reasoning"] else ["No reasoning"]
   else []) ++
  (if reqs.vision then
    if m.supportsImages then ["Has vision"] else ["No vision"]
   else [])

/-- The wizard's per-candidate scoring agrees with the specification's
description of the requirement-weighted policy, leaves the model and
provider references unchanged, and rebuilds the reasons list from scratch. -/
theorem scoreWeighted_spec (reqs : Wizard.Requirements) (ms : Wizard.ModelScore) :
    Wizard.scoreWeighted reqs ms =
      { ms with score := specWeightedScore reqs ms.model,
                reasons := specWeightedReasons reqs ms.model } := by
  simp only [Wizard.scoreWeighted, specWeightedScore, specWeightedReasons]
  split_ifs <;> simp <;> norm_num

/-- Once the wizard reaches ShowResults, no event leaves that state. -/
theorem wizard_results_absorbing (msgs : List Wizard.WizMsg)
    (m : Wizard.WizModel) (hm : m.step = Wizard.Step.results) :
    (Wizard.runEvents m msgs).step = Wizard.Step.results := by
  induction msgs generalizing m with
  | nil => exact hm
  | cons msg rest ih =>
    simp only [Wizard.runEvents, List.foldl_cons] at ih ⊢
    refine ih _ ?_
    cases msg <;>
      simp [Wizard.update, Wizard.handleEnter, hm, Wizard.listMove]

/-- A transition that does not land in ShowResults leaves the candidate
set untouched. -/
theorem wizard_step_allModels (m : Wizard.WizModel) (msg : Wizard.WizMsg)
    (h : (Wizard.update m msg).1.step ≠ Wizard.Step.results) :
    (Wizard.update m msg).1.allModels = m.allModels := by
  cases msg with
  | enter =>
    simp only [Wizard.update, Wizard.handleEnter] at h ⊢
    cases hstep : m.step with
    | budget => simp [hstep, Wizard.setupContextList]
    | context => simp [hstep, Wizard.setupReasoningList]
    | reasoning => simp [hstep, Wizard.setupVisionList]
    | vision =>
      exfalso
      apply h
      simp [hstep, Wizard.setupResultsList, Wizard.calculateScores]
    | results => simp [hstep]
  | ctrlC => rfl
  | esc => rfl
  | up => rfl
  | down => rfl
  | winSize => rfl
  | other => rfl

/-- While the wizard has not reached ShowResults, the candidate set is the
one it started with.  -/
theorem wizard_run_allModels (msgs : List Wizard.WizMsg) (m : Wizard.WizModel)
    (h : (Wizard.runEvents m msgs).step ≠ Wizard.Step.results) :
    (Wizard.runEvents m msgs).allModels = m.allModels := by
  induction msgs generalizing m with
  | nil => rfl
  | cons msg rest ih =>
    have hcons : Wizard.runEvents m (msg :: rest)
        = Wizard.runEvents (Wizard.update m msg).1 rest := rfl
    rw [hcons] at h ⊢
    have hstep : (Wizard.update m msg).1.step ≠ Wizard.Step.results := by
      intro hres
      exact h (wizard_results_absorbing rest _ hres)
    rw [ih _ h]
    exact wizard_step_allModels m msg hstep

/-- C5: confirming in CollectVision (entering ShowResults) performs exactly
one scoring pass over the wizard's full candidate set — the new candidate
list is the descending-score sort of the pointwise rescored old list — the
new state is ShowResults; the per-candidate scoring is exactly the
requirement-weighted policy of the specification (base 100; budget rule
−100 "Over budget" / +30 "Well under budget"; context rule +20 "Meets
context requirement" / −50 "Below context requirement"; reasoning and
vision rules +25 / −50 with their labels; each triggered rule appending its
label in rule order); and before ShowResults is reached the candidate set
is still the full original one. -/
theorem C5_results_scoring (m : Wizard.WizModel)
    (hstep : m.step = Wizard.Step.vision) :
    ((Wizard.update m Wizard.WizMsg.enter).1.allModels =
      GoSort.sortSlice Wizard.wScoreGT
        (m.allModels.map (Wizard.scoreWeighted
          { m.reqs with vision := (m.choices.getD m.listIndex "" == "yes") }))) ∧
    (Wizard.update m Wizard.WizMsg.enter).1.step = Wizard.Step.results ∧
    (∀ (reqs : Wizard.Requirements) (ms : Wizard.ModelScore),
        Wizard.scoreWeighted reqs ms =
          { ms with score := specWeightedScore reqs ms.model,
                    reasons := specWeightedReasons reqs ms.model }) ∧
    (∀ (l : List Wizard.ModelScore) (msgs : List Wizard.WizMsg),
        (Wizard.runEvents (Wizard.initialModel l) msgs).step ≠
            Wizard.Step.results →
        (Wizard.runEvents (Wizard.initialModel l) msgs).allModels = l) := by
  refine ⟨?_, ?_, scoreWeighted_spec, fun l msgs h => wizard_run_allModels msgs _ h⟩
  · simp [Wizard.update, Wizard.handleEnter, hstep, Wizard.calculateScores,
      Wizard.setupResultsList]
  · simp [Wizard.update, Wizard.handleEnter, hstep, Wizard.calculateScores,
      Wizard.setupResultsList]

/-- A two-candidate wizard fixture sitting in the CollectVision state. -/
def wizAtVision : Wizard.WizModel :=
  { allModels := [{ model := bigCtx.model, provider := provP, score := 0,
                    reasons := [] },
                  { model := midCtx.model, provider := provP, score := 0,
                    reasons := [] }],
    step := Wizard.Step.vision,
    reqs := { budget := 1, contextSize := 100000, reasoning := true,
              vision := false },
    listIndex := 1, listLen := 2, choices := ["yes", "no"] }

/-- C5 witness: the scoring-pass equation at the concrete fixture. -/
theorem C5_results_scoring_witness :
    (Wizard.update wizAtVision Wizard.WizMsg.enter).1.allModels =
      GoSort.sortSlice Wizard.wScoreGT
        (wizAtVision.allModels.map (Wizard.scoreWeighted
          { wizAtVision.reqs with
              vision := (wizAtVision.choices.getD wizAtVision.listIndex ""
                == "yes") })) :=
  (C5_results_scoring wizAtVision rfl).1

/-! ## C1: ranking stability

Both rankings (`scoreModels` in find-models and `calculateScores` in the
wizard) sort with Go's `sort.Slice`, which is documented as not guaranteed
to be stable and whose pdqsort reorders equal elements once a range exceeds
the insertion-sort threshold of 12.  The fixture below exhibits this:
thirteen zero-cost candidates alternating between two context tiers score
110 or 120, and the six equal 120-scorers come out in the order m9, m1, m3,
m5, m7, m11 — candidate m9 overtakes m1 although m1 precedes m9 in the
input and their scores are equal. -/

/-- A provider with no model list, keeping the tie fixture free of
non-integer rationals. -/
def provT : Catwalk.Provider := { id := "p", name := "T", models := [] }

/-- A zero-cost candidate with the given id and context window. -/
def tieCand (nm : String) (ctx : Int) : FindModels.ModelMatch :=
  { model := { id := nm, name := nm, costPer1MIn := 0, costPer1MOut := 0,
               costPer1MInCached := 0, contextWindow := ctx, canReason := false,
               supportsImages := false },
    provider := provT, score := 0 }

/-- The 13-candidate ranking input: context tiers alternate, so scores
alternate 110, 120, 110, … . -/
def tieInput : List FindModels.ModelMatch :=
  [tieCand "m0" 150000, tieCand "m1" 250000, tieCand "m2" 150000,
   tieCand "m3" 250000, tieCand "m4" 150000, tieCand "m5" 250000,
   tieCand "m6" 150000, tieCand "m7" 250000, tieCand "m8" 150000,
   tieCand "m9" 250000, tieCand "m10" 150000, tieCand "m11" 250000,
   tieCand "m12" 150000]

/-- A scored candidate of the tie fixture. -/
def tieRanked (nm : String) (ctx : Int) (sc : ℚ) : FindModels.ModelMatch :=
  { model := { id := nm, name := nm, costPer1MIn := 0, costPer1MOut := 0,
               costPer1MInCached := 0, contextWindow := ctx, canReason := false,
               supportsImages := false },
    provider := provT, score := sc }

/-- The tie fixture after the scoring pass, still in input order. -/
def tieScored : List FindModels.ModelMatch :=
  [tieRanked "m0" 150000 110, tieRanked "m1" 250000 120,
   tieRanked "m2" 150000 110, tieRanked "m3" 250000 120,
   tieRanked "m4" 150000 110, tieRanked "m5" 250000 120,
   tieRanked "m6" 150000 110, tieRanked "m7" 250000 120,
   tieRanked "m8" 150000 110, tieRanked "m9" 250000 120,
   tieRanked "m10" 150000 110, tieRanked "m11" 250000 120,
   tieRanked "m12" 150000 110]

/-- What the ranking actually returns on the tie fixture: equal-score
candidates do not retain their input order. -/
def tieExpected : List FindModels.ModelMatch :=
  [tieRanked "m9" 250000 120, tieRanked "m1" 250000 120,
   tieRanked "m3" 250000 120, tieRanked "m5" 250000 120,
   tieRanked "m7" 250000 120, tieRanked "m11" 250000 120,
   tieRanked "m2" 150000 110, tieRanked "m4" 150000 110,
   tieRanked "m6" 150000 110, tieRanked "m8" 150000 110,
   tieRanked "m0" 150000 110, tieRanked "m10" 150000 110,
   tieRanked "m12" 150000 110]

/-- The scoring pass on the tie fixture. -/
theorem tie_map_scored : tieInput.map FindModels.scoreSimple = tieScored := by
  simp [tieInput, tieScored, tieCand, tieRanked, FindModels.scoreSimple]
  norm_num

set_option maxRecDepth 4000 in
/-- The sort on the scored tie fixture, evaluated step by step through the
embedded `sort.Slice`. -/
theorem tie_sort_eval :
    GoSort.sortSlice FindModels.scoreGT tieScored = tieExpected := by
  decide

set_option maxRecDepth 4000 in
/-- C1 (evaluation at the failing input): on the 13-candidate fixture the
ranking returns m9 ahead of m1 although both score 120 and m1 precedes m9
in the input — the ranking is not a stable sort, contradicting the claim's
tie-order requirement. -/
theorem C1_ranking_tie_reordered :
    FindModels.scoreModels tieInput = tieExpected ∧
    tieInput.map (fun mm => mm.model.id) =
      ["m0", "m1", "m2", "m3", "m4", "m5", "m6", "m7", "m8", "m9", "m10",
       "m11", "m12"] ∧
    tieExpected.map (fun mm => mm.model.id) =
      ["m9", "m1", "m3", "m5", "m7", "m11", "m2", "m4", "m6", "m8", "m0",
       "m10", "m12"] ∧
    (FindModels.scoreSimple (tieCand "m1" 250000)).score =
      (FindModels.scoreSimple (tieCand "m9" 250000)).score := by
  refine ⟨?_, by decide, by decide, rfl⟩
  rw [FindModels.scoreModels, tie_map_scored]
  exact tie_sort_eval
